import Mathlib

/-!
# Shallow embedding of `src/doc/cpf.rs` (crate `bras`)

The Rust source is a single value type `Cpf` (a validated Brazilian CPF
number) with a validating constructor `Cpf::new`, conversions
(`FromStr`, `TryFrom<u64>`, `From<Cpf> for String`, `From<Cpf> for u64`)
and the two mod-11 verifier-digit checks.

Modelling decisions, each tied to the source:

* A Rust `String` is modelled as a `List Char` of its Unicode scalar
  values.  Rust's `s.len()` counts UTF-8 **bytes**, so it is modelled by
  `byteLen`, which sums the UTF-8 encoded length of each scalar.
* `Vec` indexing (`c[3]`, `c[7]`, `c[11]` in `Cpf::new`) panics when out
  of bounds; fallible results are `Result<_, ParseCpfError>`.  Both are
  captured by `RunResult`: `ok`, `err`, and `panicked` for an
  index-out-of-bounds abort.
* `u32` and `u64` arithmetic is modelled on `Nat`.  In every spot where
  the source does `u32` arithmetic the operands are digits `< 10` and
  weights `≤ 11`, so the sums stay far below `2^32` and no wrap-around
  can occur; the `u64` parse at the end of `Cpf::new` is modelled with
  its overflow check (`< 2^64`) made explicit.
-/

/-- UTF-8 encoded length in bytes of one Unicode scalar value, as used by
Rust's `String::len`. -/
def utf8Len (c : Char) : Nat :=
  if c.toNat < 0x80 then 1
  else if c.toNat < 0x800 then 2
  else if c.toNat < 0x10000 then 3
  else 4

/-- Rust `s.len()`: the UTF-8 byte length of the string. -/
def byteLen (s : List Char) : Nat := (s.map utf8Len).sum

/-- Rust `char::to_digit(10)`: `some d` exactly for the ASCII digits
(code points 48–57). -/
def charToDigit (c : Char) : Option Nat :=
  if 48 ≤ c.toNat ∧ c.toNat ≤ 57 then some (c.toNat - 48) else none

/-- The ASCII digit character for a digit value (used to build digit
strings; `48` is the code of `'0'`). -/
def digitChar (d : Nat) : Char := Char.ofNat (48 + d)

/-- `struct Cpf { inner: u64 }`. -/
structure Cpf where
  inner : Nat
deriving DecidableEq, Repr

/-- `enum ParseCpfError { Invalid }` (`#[non_exhaustive]`). -/
inductive ParseCpfError where
  | invalid
deriving DecidableEq, Repr

/-- Outcome of running a fallible Rust function: a value, an `Err`, or a
panic (out-of-bounds `Vec` indexing). -/
inductive RunResult (α : Type) where
  | ok (a : α)
  | err (e : ParseCpfError)
  | panicked
deriving DecidableEq, Repr

/-- `const FIRST_DIGIT_ARRAY: [u32; 9] = [10, 9, 8, 7, 6, 5, 4, 3, 2];` -/
def FIRST_DIGIT_ARRAY : List Nat := [10, 9, 8, 7, 6, 5, 4, 3, 2]

/-- `const SECOND_DIGIT_ARRAY: [u32; 10] = [11, 10, 9, 8, 7, 6, 5, 4, 3, 2];` -/
def SECOND_DIGIT_ARRAY : List Nat := [11, 10, 9, 8, 7, 6, 5, 4, 3, 2]

/-- `Cpf::sum_to_digit`: `sum * 10 % 11`, with `10` mapped to `0`. -/
def Cpf.sum_to_digit (sum : Nat) : Nat :=
  let digit := sum * 10 % 11
  if digit = 10 then 0 else digit

/-- `Cpf::first_verifier_digit`: zip the 9 weights with the digits
(zipping truncates to the shorter list, as Rust's `Iterator::zip` does),
multiply pairwise, sum, and reduce. -/
def Cpf.first_verifier_digit (numbers : List Nat) : Nat :=
  Cpf.sum_to_digit (List.sum (List.zipWith (fun a b => a * b) FIRST_DIGIT_ARRAY numbers))

/-- `Cpf::second_verifier_digit`: same with the 10 weights. -/
def Cpf.second_verifier_digit (numbers : List Nat) : Nat :=
  Cpf.sum_to_digit (List.sum (List.zipWith (fun a b => a * b) SECOND_DIGIT_ARRAY numbers))

/-- The separator test of `Cpf::new` for a length-14 input:
`if c[3] != '.' || c[7] != '.' || c[11] != '-' { return Err(Invalid) }`.
Rust `||` short-circuits and `Vec` indexing out of bounds panics, so each
index is looked up in order and a missing index aborts. -/
def checkSeparators (cs : List Char) : RunResult Unit :=
  match (cs[3]?) with
  | none => .panicked
  | some a =>
    if a ≠ '.' then .err .invalid
    else
      match (cs[7]?) with
      | none => .panicked
      | some b =>
        if b ≠ '.' then .err .invalid
        else
          match (cs[11]?) with
          | none => .panicked
          | some d =>
            if d ≠ '-' then .err .invalid
            else .ok ()

/-- Numeric value of a digit string, most significant digit first.  This
is the value `u64::from_str` returns on the concatenation
`numbers.iter().map(|n| n.to_string()).collect::<String>()` when every
entry is a single digit (every entry comes from `to_digit(10)`, so is
`< 10`). -/
def digitsToNat (ds : List Nat) : Nat := ds.foldl (fun a d => a * 10 + d) 0

/-- `Cpf::new`, line by line:
length check on `s.len()` (bytes); separator check when the byte length
is 14; `filter_map(to_digit(10))`; digit-count check; `&numbers[9]`;
all-equal rejection; the two verifier-digit checks; finally the digits
are concatenated and parsed as `u64` (the parse fails only on overflow,
modelled by the `< 2^64` test). -/
def Cpf.new (s : List Char) : RunResult Cpf :=
  if byteLen s ≠ 11 ∧ byteLen s ≠ 14 then .err .invalid
  else
    match (if byteLen s = 14 then checkSeparators s else .ok ()) with
    | .panicked => .panicked
    | .err e => .err e
    | .ok _ =>
      let numbers : List Nat := s.filterMap charToDigit
      if numbers.length ≠ 11 then .err .invalid
      else
        match (numbers[9]?) with
        | none => .panicked
        | some first_verifier_digit =>
          if numbers.all (fun n => n == first_verifier_digit) then .err .invalid
          else if first_verifier_digit ≠ Cpf.first_verifier_digit numbers then .err .invalid
          else
            match (numbers[10]?) with
            | none => .panicked
            | some second_verifier_digit =>
              if second_verifier_digit ≠ Cpf.second_verifier_digit numbers then .err .invalid
              else
                let value := digitsToNat numbers
                if value < 2 ^ 64 then .ok ⟨value⟩ else .err .invalid

/-- `impl FromStr for Cpf`: delegates to `Cpf::new`. -/
def cpfFromStr (s : List Char) : RunResult Cpf := Cpf.new s

/-- Decimal digits of `n`, most significant first (the digits of Rust's
`u64::to_string` / `format!("{}", n)`). -/
def natDecimal (n : Nat) : List Nat :=
  if _h : n < 10 then [n]
  else natDecimal (n / 10) ++ [n % 10]
decreasing_by exact Nat.div_lt_self (by omega) (by omega)

/-- Digit values of `format!("{:011}", n)`: the decimal digits of `n`
left-padded with zeros to width 11. -/
def pad11 (n : Nat) : List Nat :=
  List.replicate (11 - (natDecimal n).length) 0 ++ natDecimal n

/-- `format!("{:011}", n)` as a character list. -/
def padded11 (n : Nat) : List Char := (pad11 n).map digitChar

/-- `impl TryFrom<u64> for Cpf`: `Cpf::new(format!("{:011}", value))`. -/
def cpfTryFromU64 (n : Nat) : RunResult Cpf := Cpf.new (padded11 n)

/-- `impl From<Cpf> for String`: zero-pad `inner` to 11 digits and slice
into the groups `[0..3]`, `[3..6]`, `[6..9]`, `[9..]` joined by
`.`, `.`, `-` (byte slicing on an all-ASCII string is positional
slicing). -/
def cpfToString (cpf : Cpf) : List Char :=
  let v := padded11 cpf.inner
  v.take 3 ++ ['.'] ++ (v.drop 3).take 3 ++ ['.'] ++ (v.drop 6).take 3 ++ ['-'] ++ v.drop 9

/-- `Cpf::numbers_as_string`: `self.inner.to_string()`, no padding. -/
def Cpf.numbers_as_string (cpf : Cpf) : List Char :=
  (natDecimal cpf.inner).map digitChar

/-- `impl From<Cpf> for u64`: the raw inner value. -/
def cpfToU64 (cpf : Cpf) : Nat := cpf.inner

/-- `#[derive(Default)]` on the pub struct `Cpf` (cpf.rs line 44):
`Cpf::default()` is a public constructor that sets
`inner = u64::default() = 0` without going through `Cpf::new`. -/
def Cpf.default : Cpf := ⟨0⟩

/-! ## Specification-side helpers

These are not translations of source functions; they name the shapes the
claims quantify over. -/

/-- The `n` rendered in exactly `k` decimal digits, most significant
first (meaningful when `n < 10^k`). -/
def toDigitsLen : Nat → Nat → List Nat
  | 0, _ => []
  | k + 1, n => toDigitsLen k (n / 10) ++ [n % 10]

/-- The canonical punctuated 14-character string `AAA.BBB.CCC-DD` built
from an 11-entry digit list. -/
def canonicalOfDigits (ds : List Nat) : List Char :=
  (ds.take 3).map digitChar ++ ['.'] ++ ((ds.drop 3).take 3).map digitChar ++ ['.']
    ++ ((ds.drop 6).take 3).map digitChar ++ ['-'] ++ (ds.drop 9).map digitChar

/-- The 11 digits stored in a validated `Cpf` (its inner value read back
in 11 decimal digits). -/
def cpfDigits (c : Cpf) : List Nat := toDigitsLen 11 c.inner

/-- A digit list that denotes a valid identifier: 11 digits, each below
10, not all equal to the 10th entry (hence not all identical), and both
verifier digits correct. -/
def validDigits (ds : List Nat) : Prop :=
  ds.length = 11 ∧ (∀ d ∈ ds, d < 10) ∧
    ds.all (fun n => n == ds.getD 9 0) = false ∧
    ds.getD 9 0 = Cpf.first_verifier_digit ds ∧
    ds.getD 10 0 = Cpf.second_verifier_digit ds

/-! ## Character-level facts -/

theorem utf8Len_digitChar {d : Nat} (h : d < 10) : utf8Len (digitChar d) = 1 := by
  interval_cases d <;> decide

theorem charToDigit_digitChar {d : Nat} (h : d < 10) :
    charToDigit (digitChar d) = some d := by
  interval_cases d <;> decide

theorem digitChar_ne_dot {d : Nat} (h : d < 10) : digitChar d ≠ '.' := by
  interval_cases d <;> decide

theorem charToDigit_lt {c : Char} {d : Nat} (h : charToDigit c = some d) : d < 10 := by
  unfold charToDigit at h
  split at h
  · rename_i hc
    have := Option.some.inj h
    omega
  · exact absurd h (by simp)

theorem charToDigit_isSome_toNat {c : Char} {d : Nat} (h : charToDigit c = some d) :
    48 ≤ c.toNat ∧ c.toNat ≤ 57 := by
  unfold charToDigit at h
  split at h
  · rename_i hc
    exact hc
  · cases h

theorem utf8Len_of_digit {c : Char} {d : Nat} (h : charToDigit c = some d) :
    utf8Len c = 1 := by
  have hb := charToDigit_isSome_toNat h
  unfold utf8Len
  rw [if_pos (by omega)]

/-! ## List-level facts -/

theorem byteLen_map_digitChar {l : List Nat} (h : ∀ d ∈ l, d < 10) :
    byteLen (l.map digitChar) = l.length := by
  induction l with
  | nil => rfl
  | cons d t ih =>
    have hd : d < 10 := h d (List.mem_cons_self d t)
    have ht : ∀ x ∈ t, x < 10 := fun x hx => h x (List.mem_cons_of_mem d hx)
    have iht := ih ht
    simp only [byteLen, List.map_cons, List.map_map, List.sum_cons] at iht ⊢
    simp [utf8Len_digitChar hd, iht]
    omega

theorem filterMap_charToDigit_lt (s : List Char) :
    ∀ x ∈ s.filterMap charToDigit, x < 10 := by
  intro x hx
  obtain ⟨c, _, hc⟩ := List.mem_filterMap.mp hx
  exact charToDigit_lt hc

theorem length_le_byteLen (s : List Char) : s.length ≤ byteLen s := by
  induction s with
  | nil => simp [byteLen]
  | cons a t ih =>
    have h1 : 1 ≤ utf8Len a := by
      unfold utf8Len
      split
      · omega
      · split
        · omega
        · split
          · omega
          · omega
    simp only [byteLen, List.map_cons, List.sum_cons, List.length_cons] at ih ⊢
    omega

theorem filterMap_length_eq_forall {α β : Type} {f : α → Option β} {l : List α}
    (h : (l.filterMap f).length = l.length) : ∀ x ∈ l, ∃ y, f x = some y := by
  induction l with
  | nil => simp
  | cons a t ih =>
    intro x hx
    cases hfa : f a with
    | none =>
      exfalso
      rw [List.filterMap_cons, hfa] at h
      have := List.length_filterMap_le f t
      simp only [List.length_cons] at h
      omega
    | some y =>
      rw [List.filterMap_cons, hfa] at h
      simp only [List.length_cons] at h
      rcases List.mem_cons.mp hx with rfl | hxt
      · exact ⟨y, hfa⟩
      · exact ih (by omega) x hxt

theorem byteLen_eq_length_of_digits {s : List Char}
    (h : ∀ c ∈ s, ∃ y, charToDigit c = some y) : byteLen s = s.length := by
  induction s with
  | nil => rfl
  | cons a t ih =>
    obtain ⟨y, hy⟩ := h a (List.mem_cons_self a t)
    have ht : ∀ c ∈ t, ∃ y, charToDigit c = some y :=
      fun c hc => h c (List.mem_cons_of_mem a hc)
    simp only [byteLen, List.map_cons, List.sum_cons, List.length_cons] at ih ⊢
    rw [utf8Len_of_digit hy, ih ht]
    omega

theorem getElem?_eq_getD {l : List Nat} {i : Nat} (h : i < l.length) :
    l[i]? = some (l.getD i 0) := by
  rw [List.getElem?_eq_getElem h, List.getD_eq_getElem l 0 h]

/-! ## Digit strings and numbers -/

theorem digitsToNat_append (l : List Nat) (d : Nat) :
    digitsToNat (l ++ [d]) = digitsToNat l * 10 + d := by
  simp [digitsToNat, List.foldl_append]

theorem digitsToNat_lt {l : List Nat} (h : ∀ d ∈ l, d < 10) :
    digitsToNat l < 10 ^ l.length := by
  induction l using List.reverseRecOn with
  | nil => decide
  | append_singleton t d ih =>
    have hd : d < 10 := h d (by simp)
    have ht : ∀ x ∈ t, x < 10 := fun x hx => h x (by simp [hx])
    have iht := ih ht
    rw [digitsToNat_append, List.length_append, List.length_singleton, pow_succ]
    omega

theorem toDigitsLen_digitsToNat {l : List Nat} (h : ∀ d ∈ l, d < 10) :
    toDigitsLen l.length (digitsToNat l) = l := by
  induction l using List.reverseRecOn with
  | nil => rfl
  | append_singleton t d ih =>
    have hd : d < 10 := h d (by simp)
    have ht : ∀ x ∈ t, x < 10 := fun x hx => h x (by simp [hx])
    rw [digitsToNat_append, List.length_append, List.length_singleton]
    simp only [toDigitsLen]
    have h1 : (digitsToNat t * 10 + d) / 10 = digitsToNat t := by omega
    have h2 : (digitsToNat t * 10 + d) % 10 = d := by omega
    rw [h1, h2, ih ht]

theorem toDigitsLen_zero (k : Nat) : toDigitsLen k 0 = List.replicate k 0 := by
  induction k with
  | zero => rfl
  | succ k ih => simp only [toDigitsLen, Nat.zero_div, Nat.zero_mod, ih, List.replicate_succ']

theorem toDigitsLen_length (k n : Nat) : (toDigitsLen k n).length = k := by
  induction k generalizing n with
  | zero => rfl
  | succ k ih => simp [toDigitsLen, ih]

theorem natDecimal_small {n : Nat} (h : n < 10) : natDecimal n = [n] := by
  rw [natDecimal, dif_pos h]

theorem natDecimal_step {n : Nat} (h : ¬ n < 10) :
    natDecimal n = natDecimal (n / 10) ++ [n % 10] := by
  rw [natDecimal, dif_neg h]

theorem natDecimal_lt (n : Nat) : n < 10 ^ (natDecimal n).length := by
  induction n using natDecimal.induct with
  | case1 n h =>
    rw [natDecimal, dif_pos h]
    simpa using h
  | case2 n h ih =>
    rw [natDecimal, dif_neg h, List.length_append, List.length_singleton, pow_succ]
    omega

theorem natDecimal_mem_lt (n : Nat) : ∀ d ∈ natDecimal n, d < 10 := by
  induction n using natDecimal.induct with
  | case1 n h =>
    rw [natDecimal, dif_pos h]
    simpa using h
  | case2 n h ih =>
    rw [natDecimal, dif_neg h]
    intro d hd
    rcases List.mem_append.mp hd with h1 | h2
    · exact ih d h1
    · have : d = n % 10 := by simpa using h2
      omega

theorem toDigitsLen_eq_pad {k n : Nat} (hk : 1 ≤ k) (h : n < 10 ^ k) :
    toDigitsLen k n = List.replicate (k - (natDecimal n).length) 0 ++ natDecimal n := by
  induction k generalizing n with
  | zero => omega
  | succ k ih =>
    by_cases h10 : n < 10
    · simp only [toDigitsLen]
      rw [Nat.div_eq_of_lt h10, Nat.mod_eq_of_lt h10, toDigitsLen_zero]
      rw [natDecimal, dif_pos h10]
      simp [List.replicate_succ']
    · have hdiv : n / 10 < 10 ^ k := by
        rw [pow_succ] at h
        omega
      have hk1 : 1 ≤ k := by
        by_contra hc
        have : k = 0 := by omega
        subst this
        simp at hdiv
        omega
      have hrhs : natDecimal n = natDecimal (n / 10) ++ [n % 10] := by
        rw [natDecimal]
        rw [dif_neg h10]
      simp only [toDigitsLen]
      rw [ih hk1 hdiv, hrhs, List.length_append, List.length_singleton, List.append_assoc]
      rw [Nat.succ_sub_succ]

theorem pad11_eq {n : Nat} (h : n < 10 ^ 11) : pad11 n = toDigitsLen 11 n := by
  rw [toDigitsLen_eq_pad (by omega) h, pad11]

theorem natDecimal_len_ge {n : Nat} (h : 10 ^ 11 ≤ n) : 12 ≤ (natDecimal n).length := by
  have h2 := natDecimal_lt n
  by_contra hc
  have : (natDecimal n).length ≤ 11 := by omega
  have : (10 : Nat) ^ (natDecimal n).length ≤ 10 ^ 11 :=
    Nat.pow_le_pow_right (by omega) this
  omega

theorem pad11_of_ge {n : Nat} (h : 10 ^ 11 ≤ n) : pad11 n = natDecimal n := by
  have h12 := natDecimal_len_ge h
  rw [pad11]
  have : 11 - (natDecimal n).length = 0 := by omega
  rw [this]
  rfl

/-! ## Structure of `Cpf.new` -/

theorem cpfNew_stage (s : List Char)
    (hbl : ¬(byteLen s ≠ 11 ∧ byteLen s ≠ 14))
    (hsep : byteLen s = 14 → checkSeparators s = .ok ()) :
    Cpf.new s =
      (let numbers : List Nat := s.filterMap charToDigit
       if numbers.length ≠ 11 then .err .invalid
       else
         match (numbers[9]?) with
         | none => .panicked
         | some fvd =>
           if numbers.all (fun n => n == fvd) then .err .invalid
           else if fvd ≠ Cpf.first_verifier_digit numbers then .err .invalid
           else
             match (numbers[10]?) with
             | none => .panicked
             | some svd =>
               if svd ≠ Cpf.second_verifier_digit numbers then .err .invalid
               else
                 let value := digitsToNat numbers
                 if value < 2 ^ 64 then .ok ⟨value⟩ else .err .invalid) := by
  unfold Cpf.new
  rw [if_neg hbl]
  by_cases h14 : byteLen s = 14
  · rw [if_pos h14, hsep h14]
  · rw [if_neg h14]

theorem cpfNew_checksum_stage (s : List Char)
    (hbl : ¬(byteLen s ≠ 11 ∧ byteLen s ≠ 14))
    (hsep : byteLen s = 14 → checkSeparators s = .ok ())
    (hlen : (s.filterMap charToDigit).length = 11)
    (hne : (s.filterMap charToDigit).all
      (fun n => n == (s.filterMap charToDigit).getD 9 0) = false) :
    Cpf.new s =
      if (s.filterMap charToDigit).getD 9 0
            = Cpf.first_verifier_digit (s.filterMap charToDigit)
          ∧ (s.filterMap charToDigit).getD 10 0
            = Cpf.second_verifier_digit (s.filterMap charToDigit)
      then .ok ⟨digitsToNat (s.filterMap charToDigit)⟩
      else .err .invalid := by
  obtain ⟨d9, hd9⟩ : ∃ x, (s.filterMap charToDigit)[9]? = some x :=
    ⟨_, getElem?_eq_getD (by omega)⟩
  obtain ⟨d10, hd10⟩ : ∃ x, (s.filterMap charToDigit)[10]? = some x :=
    ⟨_, getElem?_eq_getD (by omega)⟩
  have e9 : (s.filterMap charToDigit).getD 9 0 = d9 :=
    Option.some.inj ((getElem?_eq_getD (by omega)).symm.trans hd9)
  have e10 : (s.filterMap charToDigit).getD 10 0 = d10 :=
    Option.some.inj ((getElem?_eq_getD (by omega)).symm.trans hd10)
  have hval : digitsToNat (s.filterMap charToDigit) < 2 ^ 64 := by
    have := digitsToNat_lt (filterMap_charToDigit_lt s)
    rw [hlen] at this
    omega
  rw [e9] at hne
  rw [e9, e10, cpfNew_stage s hbl hsep]
  simp only [hd9, hd10]
  rw [if_neg (by omega)]
  rw [if_neg (by simp [hne])]
  by_cases hc1 : d9 = Cpf.first_verifier_digit (s.filterMap charToDigit)
  · rw [if_neg (by simp [hc1])]
    by_cases hc2 : d10 = Cpf.second_verifier_digit (s.filterMap charToDigit)
    · rw [if_neg (by simp [hc2]), if_pos hval, if_pos ⟨hc1, hc2⟩]
    · rw [if_pos hc2, if_neg (fun hc => hc2 hc.2)]
  · rw [if_pos hc1, if_neg (fun hc => hc1 hc.1)]

theorem cpfNew_ok_inv {s : List Char} {c : Cpf} (h : Cpf.new s = .ok c) :
    (s.filterMap charToDigit).length = 11 ∧
    (s.filterMap charToDigit).all
      (fun n => n == (s.filterMap charToDigit).getD 9 0) = false ∧
    (s.filterMap charToDigit).getD 9 0
      = Cpf.first_verifier_digit (s.filterMap charToDigit) ∧
    (s.filterMap charToDigit).getD 10 0
      = Cpf.second_verifier_digit (s.filterMap charToDigit) ∧
    c.inner = digitsToNat (s.filterMap charToDigit) := by
  unfold Cpf.new at h
  split at h
  · cases h
  · split at h
    · cases h
    · cases h
    · simp only [] at h
      split at h
      · cases h
      · rename_i hlen11
        have hlen : (s.filterMap charToDigit).length = 11 := by omega
        split at h
        · cases h
        · rename_i fvd heq9
          have e9 : (s.filterMap charToDigit).getD 9 0 = fvd :=
            Option.some.inj ((getElem?_eq_getD (by omega)).symm.trans heq9)
          split at h
          · cases h
          · rename_i hall
            split at h
            · cases h
            · rename_i hfv
              split at h
              · cases h
              · rename_i svd heq10
                have e10 : (s.filterMap charToDigit).getD 10 0 = svd :=
                  Option.some.inj ((getElem?_eq_getD (by omega)).symm.trans heq10)
                split at h
                · cases h
                · rename_i hsv
                  split at h
                  · rename_i hlt
                    refine ⟨hlen, ?_, ?_, ?_, ?_⟩
                    · rw [e9]
                      exact Bool.not_eq_true _ ▸ (by simpa using hall)
                    · rw [e9]; omega
                    · rw [e10]; omega
                    · cases h; rfl
                  · cases h

theorem checkSeparators_ne_panicked {s : List Char} (h12 : 12 ≤ s.length) :
    checkSeparators s ≠ .panicked := by
  unfold checkSeparators
  rw [List.getElem?_eq_getElem (show 3 < s.length by omega),
      List.getElem?_eq_getElem (show 7 < s.length by omega),
      List.getElem?_eq_getElem (show 11 < s.length by omega)]
  simp only []
  split
  · simp
  · split
    · simp
    · split <;> simp

theorem cpfNew_allEqual_err {s : List Char}
    (hlen : (s.filterMap charToDigit).length = 11)
    (heq : (s.filterMap charToDigit).all
      (fun n => n == (s.filterMap charToDigit).getD 9 0) = true) :
    Cpf.new s = .err .invalid := by
  have h11 : 11 ≤ s.length := by
    have := List.length_filterMap_le charToDigit s
    omega
  obtain ⟨d9, hd9⟩ : ∃ x, (s.filterMap charToDigit)[9]? = some x :=
    ⟨_, getElem?_eq_getD (by omega)⟩
  have e9 : (s.filterMap charToDigit).getD 9 0 = d9 :=
    Option.some.inj ((getElem?_eq_getD (by omega)).symm.trans hd9)
  rw [e9] at heq
  have hsep : ∀ _ : byteLen s = 14, checkSeparators s ≠ .panicked := by
    intro h14
    apply checkSeparators_ne_panicked
    by_contra hc
    have hs11 : s.length = 11 := by omega
    have hall : ∀ c ∈ s, ∃ y, charToDigit c = some y :=
      filterMap_length_eq_forall (by omega)
    have := byteLen_eq_length_of_digits hall
    omega
  unfold Cpf.new
  split
  · rfl
  · split
    · rename_i heqm
      exfalso
      by_cases h14 : byteLen s = 14
      · rw [if_pos h14] at heqm
        exact hsep h14 heqm
      · rw [if_neg h14] at heqm
        cases heqm
    · rename_i e heqm
      cases e
      rfl
    · simp only []
      rw [if_neg (show ¬(s.filterMap charToDigit).length ≠ 11 by omega), hd9]
      simp only []
      rw [if_pos heq]

/-! ## Canonical strings -/

theorem cpfToString_eq_canonical {c : Cpf} (h : c.inner < 10 ^ 11) :
    cpfToString c = canonicalOfDigits (cpfDigits c) := by
  simp only [cpfToString, padded11, pad11_eq h, cpfDigits, canonicalOfDigits]
  simp [List.map_take, List.map_drop]

theorem canonicalOfDigits_length {ds : List Nat} (h : ds.length = 11) :
    (canonicalOfDigits ds).length = 14 := by
  simp [canonicalOfDigits, h]

theorem cpfNew_canonical (ds : List Nat) (h : validDigits ds) :
    Cpf.new (canonicalOfDigits ds) = .ok ⟨digitsToNat ds⟩ := by
  obtain ⟨hlen, hdig, hne, hv1, hv2⟩ := h
  rcases ds with _|⟨d0,_|⟨d1,_|⟨d2,_|⟨d3,_|⟨d4,_|⟨d5,_|⟨d6,_|⟨d7,_|⟨d8,_|⟨d9,_|⟨d10,tail⟩⟩⟩⟩⟩⟩⟩⟩⟩⟩⟩ <;>
    try (simp only [List.length_cons, List.length_nil] at hlen; omega)
  have htail : tail = [] := by
    have hl0 : tail.length = 0 := by
      simp only [List.length_cons] at hlen
      omega
    exact List.length_eq_zero.mp hl0
  subst htail
  have h0 : d0 < 10 := hdig d0 (by simp)
  have h1 : d1 < 10 := hdig d1 (by simp)
  have h2 : d2 < 10 := hdig d2 (by simp)
  have h3 : d3 < 10 := hdig d3 (by simp)
  have h4 : d4 < 10 := hdig d4 (by simp)
  have h5 : d5 < 10 := hdig d5 (by simp)
  have h6 : d6 < 10 := hdig d6 (by simp)
  have h7 : d7 < 10 := hdig d7 (by simp)
  have h8 : d8 < 10 := hdig d8 (by simp)
  have h9 : d9 < 10 := hdig d9 (by simp)
  have h10 : d10 < 10 := hdig d10 (by simp)
  have hcan : canonicalOfDigits [d0,d1,d2,d3,d4,d5,d6,d7,d8,d9,d10] =
      [digitChar d0, digitChar d1, digitChar d2, '.', digitChar d3, digitChar d4,
       digitChar d5, '.', digitChar d6, digitChar d7, digitChar d8, '-',
       digitChar d9, digitChar d10] := rfl
  have hbl : byteLen (canonicalOfDigits [d0,d1,d2,d3,d4,d5,d6,d7,d8,d9,d10]) = 14 := by
    rw [hcan]
    simp [byteLen, utf8Len_digitChar h0, utf8Len_digitChar h1, utf8Len_digitChar h2,
      utf8Len_digitChar h3, utf8Len_digitChar h4, utf8Len_digitChar h5,
      utf8Len_digitChar h6, utf8Len_digitChar h7, utf8Len_digitChar h8,
      utf8Len_digitChar h9, utf8Len_digitChar h10,
      (by decide : utf8Len ('.') = 1), (by decide : utf8Len ('-') = 1)]
  have hsep : checkSeparators (canonicalOfDigits [d0,d1,d2,d3,d4,d5,d6,d7,d8,d9,d10])
      = .ok () := by
    rw [hcan]
    rfl
  have hfm : (canonicalOfDigits [d0,d1,d2,d3,d4,d5,d6,d7,d8,d9,d10]).filterMap charToDigit
      = [d0,d1,d2,d3,d4,d5,d6,d7,d8,d9,d10] := by
    rw [hcan]
    simp [List.filterMap_cons, charToDigit_digitChar h0, charToDigit_digitChar h1,
      charToDigit_digitChar h2, charToDigit_digitChar h3, charToDigit_digitChar h4,
      charToDigit_digitChar h5, charToDigit_digitChar h6, charToDigit_digitChar h7,
      charToDigit_digitChar h8, charToDigit_digitChar h9, charToDigit_digitChar h10,
      (by decide : charToDigit ('.') = none), (by decide : charToDigit ('-') = none)]
  rw [cpfNew_checksum_stage _ (by omega) (fun _ => hsep) (by rw [hfm]; rfl)
    (by rw [hfm]; exact hne)]
  rw [hfm]
  rw [if_pos ⟨hv1, hv2⟩]

theorem cpfTryFromU64_rejects_large {n : Nat} (h : 10 ^ 11 ≤ n) :
    cpfTryFromU64 n = .err .invalid := by
  have hmem := natDecimal_mem_lt n
  have h12 := natDecimal_len_ge h
  have hpad : padded11 n = (natDecimal n).map digitChar := by
    rw [padded11, pad11_of_ge h]
  have hblen : byteLen (padded11 n) = (natDecimal n).length := by
    rw [hpad]
    exact byteLen_map_digitChar hmem
  unfold cpfTryFromU64
  by_cases h14 : (natDecimal n).length = 14
  · obtain ⟨c3, hc3⟩ : ∃ x, (padded11 n)[3]? = some x := by
      refine ⟨_, List.getElem?_eq_getElem ?_⟩
      rw [hpad, List.length_map]
      omega
    obtain ⟨d3, hd3, hcd3⟩ : ∃ d ∈ natDecimal n, digitChar d = c3 := by
      rw [hpad, List.getElem?_map] at hc3
      obtain ⟨d, hd⟩ : ∃ x, (natDecimal n)[3]? = some x := by
        cases he : (natDecimal n)[3]? with
        | none => rw [he] at hc3; cases hc3
        | some x => exact ⟨x, rfl⟩
      refine ⟨d, List.getElem?_mem hd, ?_⟩
      rw [hd] at hc3
      exact Option.some.inj hc3
    have hc3dot : c3 ≠ '.' := hcd3 ▸ digitChar_ne_dot (hmem d3 hd3)
    have hsep : checkSeparators (padded11 n) = .err .invalid := by
      unfold checkSeparators
      rw [hc3]
      simp only []
      rw [if_pos hc3dot]
    unfold Cpf.new
    rw [if_neg (by omega)]
    rw [if_pos (by omega : byteLen (padded11 n) = 14), hsep]
  · unfold Cpf.new
    rw [if_pos ⟨by omega, by omega⟩]

/-! ## The claims -/

/-- Claim C1: every string in canonical punctuated form (14 characters
`AAA.BBB.CCC-DD`) that denotes a valid identifier parses successfully,
and formatting the resulting identifier yields exactly the same string.
Canonical strings are in bijection with their 11 digit values, so the
claim is stated over the digit list. -/
theorem claim_C1_canonical_roundtrip (ds : List Nat) (h : validDigits ds) :
    Cpf.new (canonicalOfDigits ds) = .ok ⟨digitsToNat ds⟩ ∧
    cpfToString ⟨digitsToNat ds⟩ = canonicalOfDigits ds := by
  constructor
  · exact cpfNew_canonical ds h
  · obtain ⟨hlen, hdig, hne, hv1, hv2⟩ := h
    have hlt : digitsToNat ds < 10 ^ 11 := by
      have := digitsToNat_lt hdig
      rw [hlen] at this
      exact this
    rw [cpfToString_eq_canonical
      (show (⟨digitsToNat ds⟩ : Cpf).inner < 10 ^ 11 from hlt)]
    congr 1
    show toDigitsLen 11 (digitsToNat ds) = ds
    have := toDigitsLen_digitsToNat hdig
    rw [hlen] at this
    exact this

/-- Witness for C1 at the digits of `"984.844.854-39"`. -/
theorem claim_C1_canonical_roundtrip_witness :
    validDigits [9,8,4,8,4,4,8,5,4,3,9] ∧
    (Cpf.new (canonicalOfDigits [9,8,4,8,4,4,8,5,4,3,9])
        = .ok ⟨digitsToNat [9,8,4,8,4,4,8,5,4,3,9]⟩ ∧
      cpfToString ⟨digitsToNat [9,8,4,8,4,4,8,5,4,3,9]⟩
        = canonicalOfDigits [9,8,4,8,4,4,8,5,4,3,9]) :=
  ⟨by unfold validDigits; decide,
    claim_C1_canonical_roundtrip [9,8,4,8,4,4,8,5,4,3,9] (by unfold validDigits; decide)⟩

/-- Claim C2: for inputs that reach the checksum stage (length and
separator checks passed, 11 extracted digits, not all identical),
parsing succeeds exactly when digit 9 (0-indexed) equals the reduced
weighted sum over weights `[10,…,2]` and digit 10 equals the reduced
weighted sum over weights `[11,…,2]`, the reduction being
`(sum * 10) % 11` with `10` mapped to `0`. -/
theorem claim_C2_checksum_iff (s : List Char)
    (hbl : ¬(byteLen s ≠ 11 ∧ byteLen s ≠ 14))
    (hsep : byteLen s = 14 → checkSeparators s = .ok ())
    (hlen : (s.filterMap charToDigit).length = 11)
    (hne : (s.filterMap charToDigit).all
      (fun n => n == (s.filterMap charToDigit).getD 9 0) = false) :
    (∃ c, Cpf.new s = .ok c) ↔
      ((s.filterMap charToDigit).getD 9 0
          = Cpf.first_verifier_digit (s.filterMap charToDigit) ∧
        (s.filterMap charToDigit).getD 10 0
          = Cpf.second_verifier_digit (s.filterMap charToDigit)) := by
  rw [cpfNew_checksum_stage s hbl hsep hlen hne]
  constructor
  · rintro ⟨c, hc⟩
    by_contra hcond
    rw [if_neg hcond] at hc
    cases hc
  · intro hcond
    rw [if_pos hcond]
    exact ⟨_, rfl⟩

/-- Witness for C2 at `"98484485439"`. -/
theorem claim_C2_checksum_iff_witness :
    (¬(byteLen ("98484485439".data) ≠ 11 ∧ byteLen ("98484485439".data) ≠ 14)) ∧
    (byteLen ("98484485439".data) = 14 → checkSeparators ("98484485439".data) = .ok ()) ∧
    (("98484485439".data).filterMap charToDigit).length = 11 ∧
    (("98484485439".data).filterMap charToDigit).all
      (fun n => n == (("98484485439".data).filterMap charToDigit).getD 9 0) = false ∧
    ((∃ c, Cpf.new ("98484485439".data) = .ok c) ↔
      ((("98484485439".data).filterMap charToDigit).getD 9 0
          = Cpf.first_verifier_digit (("98484485439".data).filterMap charToDigit) ∧
        (("98484485439".data).filterMap charToDigit).getD 10 0
          = Cpf.second_verifier_digit (("98484485439".data).filterMap charToDigit))) :=
  ⟨by decide, by decide, by decide, by decide,
    claim_C2_checksum_iff ("98484485439".data) (by decide) (by decide) (by decide) (by decide)⟩

/-- Every identifier produced by the validating constructor satisfies
the construction invariants: the inner value fits in 11 decimal digits,
those 11 digits are not all identical, and both verifier digits are
correct.  (`TryFrom<u64>` goes through the same `Cpf::new`.)  This is
the factory side of the lifecycle; `Cpf.default` below escapes it. -/
theorem cpfNew_ok_satisfies_invariants (s : List Char) (c : Cpf) (h : Cpf.new s = .ok c) :
    c.inner < 10 ^ 11 ∧
    (cpfDigits c).length = 11 ∧
    (∀ d ∈ cpfDigits c, d < 10) ∧
    (¬ ∀ x ∈ cpfDigits c, ∀ y ∈ cpfDigits c, x = y) ∧
    (cpfDigits c).getD 9 0 = Cpf.first_verifier_digit (cpfDigits c) ∧
    (cpfDigits c).getD 10 0 = Cpf.second_verifier_digit (cpfDigits c) := by
  obtain ⟨hlen, hall, hv1, hv2, hinner⟩ := cpfNew_ok_inv h
  have hmem : ∀ d ∈ s.filterMap charToDigit, d < 10 := filterMap_charToDigit_lt s
  have hlt : c.inner < 10 ^ 11 := by
    rw [hinner]
    have := digitsToNat_lt hmem
    rw [hlen] at this
    exact this
  have hkey : cpfDigits c = s.filterMap charToDigit := by
    rw [cpfDigits, hinner]
    have := toDigitsLen_digitsToNat hmem
    rw [hlen] at this
    exact this
  rw [hkey]
  refine ⟨hlt, hlen, hmem, ?_, hv1, hv2⟩
  intro hpairs
  have hd9mem : (s.filterMap charToDigit).getD 9 0 ∈ s.filterMap charToDigit :=
    List.getElem?_mem (getElem?_eq_getD (by omega))
  have hforced : (s.filterMap charToDigit).all
      (fun n => n == (s.filterMap charToDigit).getD 9 0) = true := by
    rw [List.all_eq_true]
    intro x hx
    exact beq_iff_eq.mpr (hpairs x hx _ hd9mem)
  rw [hall] at hforced
  cases hforced

/-- Claim C3: the spec says identifier values are obtainable only
through the validating factory, so every observable value satisfies the
construction invariants.  The code violates this: `#[derive(Default)]`
on the pub struct (cpf.rs line 44) exposes the public non-validating
constructor `Cpf::default()` with `inner = 0`, whose 11-digit expansion
is eleven identical zeros — breaking the not-all-identical invariant —
and which no call of the factory `Cpf::new` can produce. -/
theorem claim_C3_default_bypasses_factory :
    Cpf.default = (⟨0⟩ : Cpf) ∧
    cpfDigits Cpf.default = List.replicate 11 0 ∧
    (∀ x ∈ cpfDigits Cpf.default, ∀ y ∈ cpfDigits Cpf.default, x = y) ∧
    (∀ s : List Char, Cpf.new s ≠ .ok Cpf.default) := by
  have hz : cpfDigits Cpf.default = List.replicate 11 0 := toDigitsLen_zero 11
  refine ⟨rfl, hz, ?_, ?_⟩
  · intro x hx y hy
    rw [hz] at hx hy
    rw [List.eq_of_mem_replicate hx, List.eq_of_mem_replicate hy]
  · intro s h
    obtain ⟨hlen, hall, _, _, hinner⟩ := cpfNew_ok_inv h
    have hmem : ∀ d ∈ s.filterMap charToDigit, d < 10 := filterMap_charToDigit_lt s
    have hnum : s.filterMap charToDigit = List.replicate 11 0 := by
      have ht := toDigitsLen_digitsToNat hmem
      rw [hlen] at ht
      rw [← ht, ← hinner]
      exact toDigitsLen_zero 11
    rw [hnum] at hall
    exact absurd hall (by decide)

/-- Claim C4: the specification says parsing is total for every input
string, including arbitrary Unicode, and never panics.  The code
violates this: `Cpf::new` checks the UTF-8 *byte* length (14) but then
indexes the *character* vector at positions 3, 7 and 11; the 14-byte
string `"\u{1F000}\u{1F000}\u{1F000}.x"` has only 5 characters, so the
access at index 7 is out of bounds and the program panics instead of
returning a format error. -/
theorem claim_C4_panic_on_multibyte :
    byteLen [Char.ofNat 0x1F000, Char.ofNat 0x1F000, Char.ofNat 0x1F000, '.', 'x'] = 14 ∧
    Cpf.new [Char.ofNat 0x1F000, Char.ofNat 0x1F000, Char.ofNat 0x1F000, '.', 'x']
      = .panicked := by
  decide

/-- Claim C5: `TryFrom<u64>` is definitionally parsing of the zero-padded
11-digit rendering, and every value needing more than 11 decimal digits
is rejected with a format error. -/
theorem claim_C5_tryFrom_padding (n : Nat) :
    cpfTryFromU64 n = Cpf.new (padded11 n) ∧
    (10 ^ 11 ≤ n → cpfTryFromU64 n = .err .invalid) :=
  ⟨rfl, fun h => cpfTryFromU64_rejects_large h⟩

/-- Witness for C5 at the smallest 12-digit value. -/
theorem claim_C5_tryFrom_padding_witness :
    cpfTryFromU64 (10 ^ 11) = Cpf.new (padded11 (10 ^ 11)) ∧
    cpfTryFromU64 (10 ^ 11) = .err .invalid :=
  ⟨(claim_C5_tryFrom_padding (10 ^ 11)).1,
    (claim_C5_tryFrom_padding (10 ^ 11)).2 (le_refl _)⟩

/-- Claim C6: `try_from(1678346063)` succeeds and the canonical display
string of the result is exactly `"016.783.460-63"` (leading zero
restored by the padding). -/
theorem claim_C6_numeric_roundtrip :
    cpfTryFromU64 1678346063 = .ok ⟨1678346063⟩ ∧
    cpfToString ⟨1678346063⟩ = ("016.783.460-63".data) := by
  have hnd : natDecimal 1678346063 = [1,6,7,8,3,4,6,0,6,3] := by
    simp [natDecimal_step, natDecimal_small]
  have hpad : padded11 1678346063 = ("01678346063".data) := by
    rw [padded11, pad11, hnd]
    rfl
  constructor
  · rw [cpfTryFromU64, hpad]
    decide
  · have hun : cpfToString ⟨1678346063⟩ =
        (padded11 1678346063).take 3 ++ ['.'] ++ ((padded11 1678346063).drop 3).take 3
          ++ ['.'] ++ ((padded11 1678346063).drop 6).take 3 ++ ['-']
          ++ (padded11 1678346063).drop 9 := rfl
    rw [hun, hpad]
    decide

/-- Claim C7: each of the ten strings of eleven identical digits fails
to parse, and more generally any input whose 11 extracted digits are
all identical is rejected with a format error. -/
theorem claim_C7_uniform_rejected :
    (∀ d : Nat, d < 10 →
      Cpf.new (List.replicate 11 (digitChar d)) = .err .invalid) ∧
    (∀ s : List Char,
      (s.filterMap charToDigit).length = 11 →
      (∀ x ∈ s.filterMap charToDigit, ∀ y ∈ s.filterMap charToDigit, x = y) →
      Cpf.new s = .err .invalid) := by
  constructor
  · intro d hd
    interval_cases d <;> decide
  · intro s hlen hpairs
    apply cpfNew_allEqual_err hlen
    have hd9mem : (s.filterMap charToDigit).getD 9 0 ∈ s.filterMap charToDigit :=
      List.getElem?_mem (getElem?_eq_getD (by omega))
    rw [List.all_eq_true]
    intro x hx
    exact beq_iff_eq.mpr (hpairs x hx _ hd9mem)

/-- Witness for C7: `"00000000000"` (eleven zeros) is rejected. -/
theorem claim_C7_uniform_rejected_witness :
    Cpf.new (List.replicate 11 (digitChar 0)) = .err .invalid :=
  claim_C7_uniform_rejected.1 0 (by decide)

/-- Claim C8: any input whose (byte) length is neither 11 nor 14 fails
with a format error. -/
theorem claim_C8_length_strict (s : List Char)
    (h11 : byteLen s ≠ 11) (h14 : byteLen s ≠ 14) :
    Cpf.new s = .err .invalid := by
  unfold Cpf.new
  rw [if_pos ⟨h11, h14⟩]

/-- Witness for C8 at `"98484485439invalid_str"` (length 22). -/
theorem claim_C8_length_strict_witness :
    byteLen ("98484485439invalid_str".data) ≠ 11 ∧
    byteLen ("98484485439invalid_str".data) ≠ 14 ∧
    Cpf.new ("98484485439invalid_str".data) = .err .invalid :=
  ⟨by decide, by decide,
    claim_C8_length_strict ("98484485439invalid_str".data) (by decide) (by decide)⟩

/-- Claim C9: the specification says every 14-byte input without the
exact separators `.`, `.`, `-` at positions 3, 7, 11 fails with a
format error.  The code violates this for 14-byte strings with fewer
than 12 characters: `"\u{1F000}ab.\u{E9}cd.ef"` (14 bytes, 10
characters) passes the two `.` checks and then panics indexing
character 11 instead of returning a format error. -/
theorem claim_C9_separator_panic :
    byteLen [Char.ofNat 0x1F000, 'a', 'b', '.', Char.ofNat 0xE9, 'c', 'd', '.', 'e', 'f']
      = 14 ∧
    Cpf.new [Char.ofNat 0x1F000, 'a', 'b', '.', Char.ofNat 0xE9, 'c', 'd', '.', 'e', 'f']
      = .panicked := by
  decide

/-- Claim C10: on every successfully constructed identifier the display
formatter totally produces the 14-character canonical string
`AAA.BBB.CCC-DD` built from the inner value zero-padded to 11 digits,
and the digit-string and numeric accessors are total as well. -/
theorem claim_C10_formatting_total (s : List Char) (c : Cpf) (h : Cpf.new s = .ok c) :
    cpfToString c = canonicalOfDigits (cpfDigits c) ∧
    (cpfToString c).length = 14 ∧
    Cpf.numbers_as_string c = (natDecimal c.inner).map digitChar ∧
    cpfToU64 c = c.inner := by
  obtain ⟨hlen, hall, hv1, hv2, hinner⟩ := cpfNew_ok_inv h
  have hmem : ∀ d ∈ s.filterMap charToDigit, d < 10 := filterMap_charToDigit_lt s
  have hlt : c.inner < 10 ^ 11 := by
    rw [hinner]
    have := digitsToNat_lt hmem
    rw [hlen] at this
    exact this
  have hcan := cpfToString_eq_canonical hlt
  refine ⟨hcan, ?_, rfl, rfl⟩
  rw [hcan, canonicalOfDigits_length (by rw [cpfDigits, toDigitsLen_length])]

/-- Witness for C10 at `"05119439039"` (a value with a leading zero). -/
theorem claim_C10_formatting_total_witness :
    Cpf.new ("05119439039".data) = .ok ⟨5119439039⟩ ∧
    cpfToString ⟨5119439039⟩ = canonicalOfDigits (cpfDigits ⟨5119439039⟩) ∧
    (cpfToString (⟨5119439039⟩ : Cpf)).length = 14 ∧
    Cpf.numbers_as_string ⟨5119439039⟩ = (natDecimal (⟨5119439039⟩ : Cpf).inner).map digitChar ∧
    cpfToU64 ⟨5119439039⟩ = (⟨5119439039⟩ : Cpf).inner := by
  have hok : Cpf.new ("05119439039".data) = .ok ⟨5119439039⟩ := by decide
  exact ⟨hok, claim_C10_formatting_total ("05119439039".data) ⟨5119439039⟩ hok⟩
